import Mathlib

/-!
Shallow embedding of the interactive command layer of vscode-magit
(src/commands/pushingCommands.ts and src/commands/fetchingCommands.ts):
the fetch/push/commit menus, the switch/argument compiler, the
upstream-candidate resolver of pushSetUpstream, the configure-then-retry
push actions, and the editor-backed commit orchestrator
runCommitLikeCommand.

External collaborators (the quick-pick chooser, the git subprocess, the
preview surface, the status bar) are modelled as trace events and as
parameters carrying the collaborator's response; repository state is an
explicit structure threaded through the actions.
-/

namespace VSCodeMagit

/-- RefType from the vscode git extension typings: a const enum with the
three members Head = 0, RemoteHead = 1, Tag = 2. -/
inductive RefType where
  | Head
  | RemoteHead
  | Tag
deriving DecidableEq, Repr

/-- Numeric value of the const enum member, used by the comparator
`(refA, refB) => refB.type - refA.type` in pushSetUpstream. -/
def RefType.toNat : RefType → Nat
  | .Head => 0
  | .RemoteHead => 1
  | .Tag => 2

/-- A ref of the repository state (`repository.state.refs`): name and
commit are optional in the git extension typings. -/
structure Ref where
  name : Option String := none
  type : RefType
  remote : Option String := none
  commit : Option String := none
deriving DecidableEq, Repr

/-- A configured remote (`repository.state.remotes`). -/
structure MagitRemote where
  name : String
  pushUrl : Option String := none
deriving DecidableEq, Repr

/-- The `{ name, remote }` pairs stored in HEAD.pushRemote,
HEAD.upstream and HEAD.upstreamRemote. -/
structure UpstreamRef where
  name : String
  remote : String
deriving DecidableEq, Repr

/-- The HEAD branch of the magit state: every field the two command
files read from `repository.magitState?.HEAD?`. -/
structure MagitBranch where
  name : Option String := none
  pushRemote : Option UpstreamRef := none
  upstream : Option UpstreamRef := none
  upstreamRemote : Option UpstreamRef := none
deriving DecidableEq, Repr

/-- The slice of `repository.state` the two command files read. -/
structure RepositoryState where
  refs : List Ref := []
  remotes : List MagitRemote := []
deriving DecidableEq, Repr

/-- The slice of `repository.magitState` the two command files read. -/
structure MagitState where
  HEAD : Option MagitBranch := none
deriving DecidableEq, Repr

/-- The repository object threaded through every menu action. -/
structure MagitRepository where
  state : RepositoryState
  magitState : Option MagitState := none
deriving DecidableEq, Repr

/-- Optional chaining `repository.magitState?.HEAD?`. -/
def headOf (repo : MagitRepository) : Option MagitBranch :=
  repo.magitState.bind (fun s => s.HEAD)

/-- Optional chaining `repository.magitState?.HEAD?.name`. -/
def headName (repo : MagitRepository) : Option String :=
  (headOf repo).bind (fun h => h.name)

/-- Optional chaining `repository.magitState?.HEAD?.pushRemote`. -/
def headPushRemote (repo : MagitRepository) : Option UpstreamRef :=
  (headOf repo).bind (fun h => h.pushRemote)

/-- Optional chaining `repository.magitState?.HEAD?.upstream`. -/
def headUpstream (repo : MagitRepository) : Option UpstreamRef :=
  (headOf repo).bind (fun h => h.upstream)

/-- Optional chaining `repository.magitState?.HEAD?.upstreamRemote`. -/
def headUpstreamRemote (repo : MagitRepository) : Option UpstreamRef :=
  (headOf repo).bind (fun h => h.upstreamRemote)

/-- The assignment `repository.magitState!.HEAD!.pushRemote = pr`
(reached only under a guard that implies HEAD exists). -/
def setHeadPushRemote (repo : MagitRepository) (pr : UpstreamRef) : MagitRepository :=
  { repo with magitState := repo.magitState.map (fun s =>
      { s with HEAD := s.HEAD.map (fun h => { h with pushRemote := some pr }) }) }

/-- The assignment `repository.magitState!.HEAD!.upstreamRemote = ur`
(reached only under a guard that implies HEAD exists). -/
def setHeadUpstreamRemote (repo : MagitRepository) (ur : UpstreamRef) : MagitRepository :=
  { repo with magitState := repo.magitState.map (fun s =>
      { s with HEAD := s.HEAD.map (fun h => { h with upstreamRemote := some ur }) }) }

/-- JavaScript coercion of a possibly-undefined string into a string, as
performed by string concatenation and template literals: `undefined`
renders as the text "undefined". -/
def jsStr : Option String → String
  | some s => s
  | none => "undefined"

/-- A switch offered by a menu, as declared in the pushing, fetching and
committing menus; the spec's data model gives it an `enabled` toggle
scoped to one menu presentation. -/
structure Switch where
  shortName : String
  longName : String
  description : String
  enabled : Bool := false
deriving DecidableEq, Repr

/-- Modelled from the spec: `MenuUtil.switchesToArgs` lives in
src/menu/menu.ts, which is not under src (only its call sites in the two
command files are). The spec describes it as a pure compiler emitting,
in declaration order, the long form of each enabled switch and nothing
else. -/
def switchesToArgs : List Switch → List String
  | [] => []
  | s :: rest => if s.enabled then s.longName :: switchesToArgs rest else switchesToArgs rest

/-- Observable side effects of the fetch/push menu actions: configuration
writes (`repository.setConfig`), in-memory HEAD mutations, and external
git process invocations (`gitRun`). -/
inductive ActionEvent where
  | setConfig (key value : String)
  | mutatePushRemote (name remote : String)
  | mutateUpstreamRemote (name remote : String)
  | gitRun (args : List String)
  | executeCommand (cmd : String)
deriving DecidableEq, Repr

/-- Identifiers for the action callables bound to the fetching menu
items (fetchFromPushRemote, fetchFromUpstream, fetchFromElsewhere,
fetchAll, fetchAnotherBranch). -/
inductive FetchAction where
  | fromPushRemote
  | fromUpstream
  | elsewhere
  | all
  | anotherBranch
deriving DecidableEq, Repr

/-- Identifiers for the action callables bound to the pushing menu items
(pushToPushRemote, pushSetPushRemote, pushUpstream, pushSetUpstream,
pushElsewhere, pushTag, pushAllTags). -/
inductive PushAction where
  | toPushRemote
  | setPushRemoteThenPush
  | toUpstream
  | setUpstreamThenPush
  | elsewhere
  | oneTag
  | allTags
deriving DecidableEq, Repr

/-- A labelled menu item; the action field identifies which callable the
source binds to the label. -/
structure FetchMenuItem where
  label : String
  description : String
  action : FetchAction
deriving DecidableEq, Repr

/-- A labelled pushing menu item. -/
structure PushMenuItem where
  label : String
  description : String
  action : PushAction
deriving DecidableEq, Repr

/-- The fetching menu construction from `fetching` in
fetchingCommands.ts: a `p` item when HEAD.pushRemote is set, a `u` item
when HEAD.upstream is set, then the unconditional `e`, `a`, `o`
items. -/
def fetchingMenuItems (repo : MagitRepository) : List FetchMenuItem :=
  (match headPushRemote repo with
    | some pr => [{ label := "p", description := pr.remote, action := .fromPushRemote }]
    | none => []) ++
  (match headUpstream repo with
    | some u => [{ label := "u", description := u.remote, action := .fromUpstream }]
    | none => []) ++
  [{ label := "e", description := "elsewhere", action := .elsewhere },
   { label := "a", description := "all remotes", action := .all },
   { label := "o", description := "another branch", action := .anotherBranch }]

/-- The pushing menu construction from `generatePushingMenu` in
pushingCommands.ts: `p` bound to pushToPushRemote when HEAD.pushRemote
is set and to pushSetPushRemote otherwise, `u` bound to pushUpstream when
HEAD.upstream is set and to pushSetUpstream otherwise, then `e`, `T`,
`t`. -/
def generatePushingMenu (repo : MagitRepository) : List PushMenuItem :=
  (match headPushRemote repo with
    | some pr =>
      [{ label := "p", description := pr.remote ++ "/" ++ pr.name, action := .toPushRemote }]
    | none =>
      [{ label := "p", description := "pushRemote, after setting that", action := .setPushRemoteThenPush }]) ++
  (match headUpstream repo with
    | some u =>
      [{ label := "u", description := u.remote ++ "/" ++ u.name, action := .toUpstream }]
    | none =>
      [{ label := "u", description := "@\x7bupstream\x7d, after setting that", action := .setUpstreamThenPush }]) ++
  [{ label := "e", description := "elsewhere", action := .elsewhere },
   { label := "T", description := "a tag", action := .oneTag },
   { label := "t", description := "all tags", action := .allTags }]

/-- `fetchFromUpstream`: guarded by the truthiness of
`repository.magitState?.HEAD?.upstreamRemote` (an object, truthy iff
defined); runs `fetch` with the compiled switches and the upstream
remote, otherwise does nothing. -/
def fetchFromUpstream (repo : MagitRepository) (switches : List Switch) : List ActionEvent :=
  match headUpstreamRemote repo with
  | some ur => [.gitRun (["fetch"] ++ switchesToArgs switches ++ [ur.remote])]
  | none => []

/-- `fetchFromPushRemote`: guarded by the truthiness of
`repository.magitState?.HEAD?.pushRemote`. -/
def fetchFromPushRemote (repo : MagitRepository) (switches : List Switch) : List ActionEvent :=
  match headPushRemote repo with
  | some pr => [.gitRun (["fetch"] ++ switchesToArgs switches ++ [pr.remote])]
  | none => []

/-- `pushToPushRemote`: guarded by `pushRemote?.remote && ref`, i.e. both
strings must be defined and non-empty under JavaScript truthiness; runs
`push` with the compiled switches, the push remote and the branch. -/
def pushToPushRemote (repo : MagitRepository) (switches : List Switch) : List ActionEvent :=
  match headPushRemote repo, headName repo with
  | some pr, some r =>
    if pr.remote ≠ "" ∧ r ≠ "" then
      [.gitRun (["push"] ++ switchesToArgs switches ++ [pr.remote, r])]
    else []
  | _, _ => []

/-- `pushUpstream`: guarded by `upstreamRemote?.remote && ref`; runs
`push` with the compiled switches, the upstream remote and the
branch. -/
def pushUpstream (repo : MagitRepository) (switches : List Switch) : List ActionEvent :=
  match headUpstreamRemote repo, headName repo with
  | some ur, some r =>
    if ur.remote ≠ "" ∧ r ≠ "" then
      [.gitRun (["push"] ++ switchesToArgs switches ++ [ur.remote, r])]
    else []
  | _, _ => []

/-- `pushSetPushRemote`: the remote chooser is an external collaborator,
so its response arrives as the `chosenRemote` parameter (`none` models a
dismissed chooser). Under the guard `chosenRemote && ref` (non-empty
strings) it awaits the `branch.<ref>.pushRemote` configuration write,
mutates the in-memory HEAD.pushRemote, and re-invokes pushToPushRemote
on the updated repository; the pair returned is the emitted trace and
the repository after the action. -/
def pushSetPushRemote (repo : MagitRepository) (switches : List Switch)
    (chosenRemote : Option String) : List ActionEvent × MagitRepository :=
  match chosenRemote, headName repo with
  | some cr, some r =>
    if cr ≠ "" ∧ r ≠ "" then
      let repoUpd := setHeadPushRemote repo { name := r, remote := cr }
      ([.setConfig ("branch." ++ r ++ ".pushRemote") cr,
        .mutatePushRemote r cr] ++ pushToPushRemote repoUpd switches, repoUpd)
    else ([], repo)
  | _, _ => ([], repo)

/-- Split of a character list at its first slash: everything before the
first slash, and everything after it (empty when there is no slash). -/
def breakAtSlash : List Char → List Char × List Char
  | [] => ([], [])
  | c :: cs =>
    if c = '/' then ([], cs)
    else
      let p := breakAtSlash cs
      (c :: p.1, p.2)

/-- Modelled from the spec: `GitTextUtils.remoteBranchFullNameToSegments`
lives in src/utils/gitTextUtils.ts, which is not under src. The spec says
an upstream choice "splits into a remote and a branch name" and that
candidates are named `<remote>/<branch>`; modelled as splitting at the
first slash, the remainder kept verbatim. -/
def remoteBranchFullNameToSegments (s : String) : String × String :=
  let p := breakAtSlash s.data
  (String.mk p.1, String.mk p.2)

/-- Stable insertion of a ref into a list already ordered by descending
`type`, matching the placement JavaScript's stable sort with comparator
`(refA, refB) => refB.type - refA.type` gives a later element. -/
def insertByTypeDesc (x : Ref) : List Ref → List Ref
  | [] => [x]
  | y :: ys =>
    if y.type.toNat ≤ x.type.toNat then x :: y :: ys else y :: insertByTypeDesc x ys

/-- Stable sort by descending `type`, the behaviour of
`.sort((refA, refB) => refB.type - refA.type)` (Array.prototype.sort is
stable). -/
def sortByTypeDesc : List Ref → List Ref
  | [] => []
  | x :: xs => insertByTypeDesc x (sortByTypeDesc xs)

/-- The filter applied to the upstream choices in pushSetUpstream:
`ref.type !== RefType.Tag && ref.name !== repository.magitState?.HEAD?.name`,
with the name comparison on possibly-undefined strings. -/
def upstreamFilter (headNm : Option String) (r : Ref) : Bool :=
  r.type ≠ RefType.Tag && r.name ≠ headNm

/-- The candidate list built by `pushSetUpstream` before it is handed to
the quick-pick chooser: start from `repository.state.refs`; when at
least one remote is configured and no ref is named
`<first remote>/<HEAD name>` (string concatenation renders an undefined
HEAD name as "undefined"), prepend a synthetic RemoteHead ref of that
name; then drop tags and the ref named like HEAD, and stable-sort by
descending ref type. The subsequent map to quick-pick items is
label-preserving and positional. -/
def upstreamCandidates (repo : MagitRepository) : List Ref :=
  let choices :=
    match repo.state.remotes with
    | [] => repo.state.refs
    | r0 :: _ =>
      if repo.state.refs.any
          (fun r => r.name == some (r0.name ++ "/" ++ jsStr (headName repo))) then
        repo.state.refs
      else
        { name := some (r0.name ++ "/" ++ jsStr (headName repo)),
          remote := some r0.name,
          type := RefType.RemoteHead } :: repo.state.refs
  sortByTypeDesc (choices.filter (upstreamFilter (headName repo)))

/-- `pushSetUpstream` after the chooser has answered: the chooser's
response (or its dismissal or rejection, both leaving `chosenRemote`
undefined via the surrounding try/catch) is the `chosenRemote`
parameter. Under the guard `chosenRemote && ref`, the choice is split
into remote and branch segments; when both are truthy the two
configuration writes `branch.<ref>.merge` and `branch.<ref>.remote` are
started in that order and jointly awaited (Promise.all), the in-memory
HEAD.upstreamRemote is then mutated, and pushUpstream is re-invoked on
the updated repository. -/
def pushSetUpstream (repo : MagitRepository) (switches : List Switch)
    (chosenRemote : Option String) : List ActionEvent × MagitRepository :=
  match chosenRemote, headName repo with
  | some cr, some r =>
    if cr ≠ "" ∧ r ≠ "" then
      let seg := remoteBranchFullNameToSegments cr
      if seg.1 ≠ "" ∧ seg.2 ≠ "" then
        let repoUpd := setHeadUpstreamRemote repo { name := seg.2, remote := seg.1 }
        ([.setConfig ("branch." ++ r ++ ".merge") ("refs/heads/" ++ seg.2),
          .setConfig ("branch." ++ r ++ ".remote") seg.1,
          .mutateUpstreamRemote seg.2 seg.1] ++ pushUpstream repoUpd switches, repoUpd)
      else ([], repo)
    else ([], repo)
  | _, _ => ([], repo)

/-- The CommitEditorOptions object of pushingCommands.ts: every field is
optional, so each is an Option; an absent field is `undefined` and hence
falsy where the orchestrator tests it. -/
structure CommitEditorOptions where
  updatePostCommitTask : Option Bool := none
  showStagedChanges : Option Bool := none
  editor : Option String := none
  propagateErrors : Option Bool := none
deriving DecidableEq, Repr

/-- Truthiness of an optional boolean field: `undefined` is falsy. -/
def fieldTruthy : Option Bool → Bool
  | some b => b
  | none => false

/-- The showStagedChanges value the orchestrator body observes: the
parameter default `= \x7b showStagedChanges: true \x7d` applies only when the
whole options argument is omitted (undefined); an explicitly passed
options object contributes exactly its own fields, so a caller passing
an object without showStagedChanges yields a falsy (undefined) value. -/
def effShowStagedChanges : Option CommitEditorOptions → Bool
  | none => true
  | some o => fieldTruthy o.showStagedChanges

/-- The updatePostCommitTask value the orchestrator body observes (the
default options object leaves it undefined). -/
def effUpdatePostCommitTask : Option CommitEditorOptions → Bool
  | none => false
  | some o => fieldTruthy o.updatePostCommitTask

/-- The propagateErrors value the orchestrator body observes (the
default options object leaves it undefined). -/
def effPropagateErrors : Option CommitEditorOptions → Bool
  | none => false
  | some o => fieldTruthy o.propagateErrors

/-- The environment variable name pointed at the blocking editor command:
`editor ?? 'GIT_EDITOR'`. -/
def effEditorVar : Option CommitEditorOptions → String
  | none => "GIT_EDITOR"
  | some o => o.editor.getD "GIT_EDITOR"

/-- Result of the external git process (`\x7bstdout, stderr\x7d`). -/
structure GitResult where
  stdout : String := ""
  stderr : String := ""
deriving DecidableEq, Repr

/-- Outcome of the external git process task: resolution with a result,
or rejection (non-zero exit, or the user cancelling the editor
compose step). -/
inductive ProcOutcome where
  | ok (r : GitResult)
  | failed
deriving DecidableEq, Repr

/-- Modelled from the spec: `Constants.LineSplitterRegex` lives in
src/common/constants.ts, which is not under src; the spec says the
completion message contains the process's "collapsed single-line
output", so line breaks are replaced by spaces. -/
def collapseLines (s : String) : String :=
  String.map (fun c => if c = Char.ofNat 10 then ' ' else c) s

/-- Observable steps of runCommitLikeCommand, in program order: status
messages, the staged-changes preview lifecycle, and the git process
invocation with its editor environment override. `awaitPreview` marks
the settling of the preview-open task inside the finally block;
`closePreview` stands for the show/close/navigate sequence run for one
visible editor bound to the preview document. -/
inductive CommitEvent where
  | showInstruction
  | openPreview
  | gitStart (args : List String) (editorVar : String)
  | updateStatusView
  | gitSettled
  | disposeInstruction
  | statusMessage (msg : String)
  | awaitPreview
  | closePreview
deriving DecidableEq, Repr

/-- Outcome and trace of one orchestrator invocation: `raised` is true
when the call re-raises the process failure to its caller. -/
structure CommitRun where
  trace : List CommitEvent
  raised : Bool
deriving DecidableEq, Repr

/-- Shallow embedding of `runCommitLikeCommand`. The external process
outcome arrives as `proc`; `visible` is the number of currently visible
editors bound to the preview document when the finally block runs (the
preview surface opened by this invocation is displayed as one editor).
Program order: show the instructional message; if showStagedChanges is
truthy, start the preview-open task; start the git process with the
editor environment override; optionally sleep and refresh the status
view; await the process. On resolution, dispose the instructional
message and show the "Git finished" message with the collapsed stdout;
on rejection, the catch block disposes the instructional message and
shows "Commit canceled.", and the failure is re-raised after the finally
block iff propagateErrors is truthy. The finally block awaits the
preview-open task and, when a preview editor exists, runs the close
sequence once per visible editor bound to its document. -/
def runCommitLikeCommand (args : List String) (opts : Option CommitEditorOptions)
    (proc : ProcOutcome) (visible : Nat) : CommitRun :=
  let tryCatchTrace :=
    [CommitEvent.showInstruction] ++
    (if effShowStagedChanges opts then [CommitEvent.openPreview] else []) ++
    [CommitEvent.gitStart args (effEditorVar opts)] ++
    (if effUpdatePostCommitTask opts then [CommitEvent.updateStatusView] else []) ++
    [CommitEvent.gitSettled] ++
    (match proc with
      | .ok r =>
        [CommitEvent.disposeInstruction,
         CommitEvent.statusMessage ("Git finished: " ++ collapseLines r.stdout)]
      | .failed =>
        [CommitEvent.disposeInstruction,
         CommitEvent.statusMessage "Commit canceled."])
  let finallyTrace :=
    [CommitEvent.awaitPreview] ++
    (if effShowStagedChanges opts then List.replicate visible CommitEvent.closePreview else [])
  { trace := tryCatchTrace ++ finallyTrace,
    raised := match proc with
      | .ok _ => false
      | .failed => effPropagateErrors opts }

/-- Recognizer for the preview-close step in a trace. -/
def isClosePreview : CommitEvent → Bool
  | .closePreview => true
  | _ => false

/-- Recognizer for the settling of the preview-open task in a trace. -/
def isAwaitPreview : CommitEvent → Bool
  | .awaitPreview => true
  | _ => false

/-- Sample switch list: the pushing menu's switches with force-with-lease
and dry-run toggled on. -/
def demoSwitches : List Switch :=
  [{ shortName := "-f", longName := "--force-with-lease", description := "Force with lease", enabled := true },
   { shortName := "-F", longName := "--force", description := "Force" },
   { shortName := "-h", longName := "--no-verify", description := "Disable hooks" },
   { shortName := "-d", longName := "--dry-run", description := "Dry run", enabled := true }]

/-- Sample repository: branch main, one remote origin, no pushRemote, no
upstream configured. -/
def demoRepoNoPushRemote : MagitRepository :=
  { state := { refs := [], remotes := [{ name := "origin" }] },
    magitState := some { HEAD := some { name := some "main" } } }

/-- Sample repository: branch main tracking upstream origin/main, with
upstreamRemote left unset and no pushRemote. -/
def demoRepoUpstreamOnly : MagitRepository :=
  { state := { refs := [], remotes := [{ name := "origin" }] },
    magitState := some { HEAD := some { name := some "main", upstream := some { name := "main", remote := "origin" } } } }

/-- Sample repository: branch main, remote origin, and a single ref that
is a tag named "origin/main". -/
def demoRepoTagShadow : MagitRepository :=
  { state := { refs := [{ name := some "origin/main", type := .Tag }],
               remotes := [{ name := "origin" }] },
    magitState := some { HEAD := some { name := some "main" } } }

/-- Sample repository: branch feature, remote origin, and a ref set
containing only the local branch main (no ref named origin/feature). -/
def demoRepoFeature : MagitRepository :=
  { state := { refs := [{ name := some "main", type := .Head }],
               remotes := [{ name := "origin" }] },
    magitState := some { HEAD := some { name := some "feature" } } }

theorem mem_insertByTypeDesc {z x : Ref} {l : List Ref} :
    z ∈ insertByTypeDesc x l ↔ z = x ∨ z ∈ l := by
  induction l with
  | nil => simp [insertByTypeDesc]
  | cons y ys ih =>
    by_cases h : y.type.toNat ≤ x.type.toNat
    · simp [insertByTypeDesc, h]
    · simp only [insertByTypeDesc, if_neg h, List.mem_cons, ih]
      tauto

theorem mem_sortByTypeDesc {z : Ref} {l : List Ref} :
    z ∈ sortByTypeDesc l ↔ z ∈ l := by
  induction l with
  | nil => simp [sortByTypeDesc]
  | cons x xs ih => simp [sortByTypeDesc, mem_insertByTypeDesc, ih]

theorem length_insertByTypeDesc (x : Ref) (l : List Ref) :
    (insertByTypeDesc x l).length = l.length + 1 := by
  induction l with
  | nil => rfl
  | cons y ys ih =>
    by_cases h : y.type.toNat ≤ x.type.toNat <;>
      simp [insertByTypeDesc, h, ih]

theorem length_sortByTypeDesc (l : List Ref) :
    (sortByTypeDesc l).length = l.length := by
  induction l with
  | nil => rfl
  | cons x xs ih => simp [sortByTypeDesc, length_insertByTypeDesc, ih]

theorem sortByTypeDesc_ne_nil {l : List Ref} (h : l ≠ []) : sortByTypeDesc l ≠ [] := by
  intro hc
  have hlen := length_sortByTypeDesc l
  rw [hc] at hlen
  exact h (List.length_eq_zero.mp hlen.symm)

theorem sortByTypeDesc_cons_of_max {x : Ref} {l : List Ref}
    (h : ∀ y ∈ l, y.type.toNat ≤ x.type.toNat) :
    sortByTypeDesc (x :: l) = x :: sortByTypeDesc l := by
  show insertByTypeDesc x (sortByTypeDesc l) = _
  cases hs : sortByTypeDesc l with
  | nil => rfl
  | cons y ys =>
    have hy : y ∈ l := mem_sortByTypeDesc.mp (hs ▸ List.mem_cons_self y ys)
    simp [insertByTypeDesc, h y hy]

theorem slash_append_ne (a b : String) : a ++ "/" ++ b ≠ b := by
  intro h
  have hone : ("/" : String).length = 1 := rfl
  have hlen := congrArg String.length h
  rw [String.length_append, String.length_append, hone] at hlen
  omega

theorem headOf_setHeadPushRemote (repo : MagitRepository) (pr : UpstreamRef) :
    headOf (setHeadPushRemote repo pr) =
      (headOf repo).map (fun h => { h with pushRemote := some pr }) := by
  cases hms : repo.magitState with
  | none => simp [headOf, setHeadPushRemote, hms]
  | some s => cases hh : s.HEAD <;> simp [headOf, setHeadPushRemote, hms, hh]

theorem headOf_setHeadUpstreamRemote (repo : MagitRepository) (ur : UpstreamRef) :
    headOf (setHeadUpstreamRemote repo ur) =
      (headOf repo).map (fun h => { h with upstreamRemote := some ur }) := by
  cases hms : repo.magitState with
  | none => simp [headOf, setHeadUpstreamRemote, hms]
  | some s => cases hh : s.HEAD <;> simp [headOf, setHeadUpstreamRemote, hms, hh]

theorem headName_setHeadPushRemote (repo : MagitRepository) (pr : UpstreamRef) :
    headName (setHeadPushRemote repo pr) = headName repo := by
  simp only [headName, headOf_setHeadPushRemote]
  cases headOf repo <;> simp

theorem headName_setHeadUpstreamRemote (repo : MagitRepository) (ur : UpstreamRef) :
    headName (setHeadUpstreamRemote repo ur) = headName repo := by
  simp only [headName, headOf_setHeadUpstreamRemote]
  cases headOf repo <;> simp

theorem headPushRemote_setHeadPushRemote (repo : MagitRepository) (pr : UpstreamRef)
    (h : (headOf repo).isSome) :
    headPushRemote (setHeadPushRemote repo pr) = some pr := by
  obtain ⟨hd, hh⟩ := Option.isSome_iff_exists.mp h
  simp [headPushRemote, headOf_setHeadPushRemote, hh]

theorem headUpstreamRemote_setHeadUpstreamRemote (repo : MagitRepository) (ur : UpstreamRef)
    (h : (headOf repo).isSome) :
    headUpstreamRemote (setHeadUpstreamRemote repo ur) = some ur := by
  obtain ⟨hd, hh⟩ := Option.isSome_iff_exists.mp h
  simp [headUpstreamRemote, headOf_setHeadUpstreamRemote, hh]

theorem sublist_surround {α : Type} (l pre post : List α) :
    List.Sublist l (pre ++ (l ++ post)) :=
  List.Sublist.trans (List.sublist_append_left l post) (List.sublist_append_right pre _)

/-- C7: for every ordered switch list, the compiled argument vector is,
in declaration order, exactly the long form of each enabled switch and
nothing else: its length equals the count of enabled switches, it equals
the long-form image of the enabled sublist, and a list with all switches
disabled compiles to the empty vector. -/
theorem switchesToArgs_spec (sw : List Switch) :
    (switchesToArgs sw).length = sw.countP (fun s => s.enabled) ∧
    switchesToArgs sw = (sw.filter (fun s => s.enabled)).map (fun s => s.longName) ∧
    (sw.all (fun s => !s.enabled) → switchesToArgs sw = []) := by
  have heq : switchesToArgs sw = (sw.filter (fun s => s.enabled)).map (fun s => s.longName) := by
    induction sw with
    | nil => rfl
    | cons s rest ih =>
      by_cases h : s.enabled <;> simp [switchesToArgs, List.filter_cons, h, ih]
  refine ⟨?_, heq, ?_⟩
  · rw [heq]
    simp [List.countP_eq_length_filter]
  · intro hall
    rw [heq]
    have hnil : sw.filter (fun s => s.enabled) = [] := by
      rw [List.filter_eq_nil_iff]
      intro a ha
      have := List.all_eq_true.mp hall a ha
      simpa using this
    rw [hnil]
    rfl

/-- Witness for C7 at the pushing menu's switch list with
force-with-lease and dry-run toggled on. -/
theorem switchesToArgs_spec_witness :
    (switchesToArgs demoSwitches).length = demoSwitches.countP (fun s => s.enabled) ∧
    switchesToArgs demoSwitches = ["--force-with-lease", "--dry-run"] :=
  ⟨(switchesToArgs_spec demoSwitches).1, by decide⟩

/-- C8: with HEAD tracking an upstream and no push-remote configured,
the fetching menu offers exactly the labels u, e, a, o in that order,
bound to fetch-from-upstream, fetch-elsewhere, fetch-all-remotes and
fetch-another-branch; and in every repository state the label p is
offered exactly when a push-remote is configured. -/
theorem fetchingMenu_spec :
    (∀ repo : MagitRepository, headPushRemote repo = none → (headUpstream repo).isSome →
      (fetchingMenuItems repo).map (fun i => (i.label, i.action)) =
        [("u", FetchAction.fromUpstream), ("e", FetchAction.elsewhere),
         ("a", FetchAction.all), ("o", FetchAction.anotherBranch)]) ∧
    (∀ repo : MagitRepository,
      (fetchingMenuItems repo).any (fun i => i.label == "p") = (headPushRemote repo).isSome) := by
  constructor
  · intro repo h1 h2
    obtain ⟨u, hu⟩ := Option.isSome_iff_exists.mp h2
    simp [fetchingMenuItems, h1, hu]
  · intro repo
    cases h1 : headPushRemote repo <;> cases h2 : headUpstream repo <;>
      simp [fetchingMenuItems, h1, h2]

/-- Witness for C8: branch main tracking origin/main with no push-remote
yields the menu u, e, a, o. -/
theorem fetchingMenu_spec_witness :
    (fetchingMenuItems demoRepoUpstreamOnly).map (fun i => (i.label, i.action)) =
      [("u", FetchAction.fromUpstream), ("e", FetchAction.elsewhere),
       ("a", FetchAction.all), ("o", FetchAction.anotherBranch)] :=
  fetchingMenu_spec.1 demoRepoUpstreamOnly rfl rfl

/-- C10: when HEAD.upstream is set but HEAD.upstreamRemote is unset,
both the fetching and the pushing menus offer a u item bound to the
upstream action, yet invoking fetchFromUpstream or pushUpstream on that
state emits no configuration write and no process invocation, because
the menus gate on the upstream field while the actions check the
separate upstreamRemote field. -/
theorem upstreamItem_offered_but_inert (repo : MagitRepository) (switches : List Switch)
    (h1 : (headUpstream repo).isSome) (h2 : headUpstreamRemote repo = none) :
    (∃ i ∈ fetchingMenuItems repo, i.label = "u" ∧ i.action = FetchAction.fromUpstream) ∧
    (∃ i ∈ generatePushingMenu repo, i.label = "u" ∧ i.action = PushAction.toUpstream) ∧
    fetchFromUpstream repo switches = [] ∧
    pushUpstream repo switches = [] := by
  obtain ⟨u, hu⟩ := Option.isSome_iff_exists.mp h1
  refine ⟨⟨⟨"u", u.remote, .fromUpstream⟩, ?_, rfl, rfl⟩,
          ⟨⟨"u", u.remote ++ "/" ++ u.name, .toUpstream⟩, ?_, rfl, rfl⟩, ?_, ?_⟩
  · simp [fetchingMenuItems, hu]
  · simp [generatePushingMenu, hu]
  · simp [fetchFromUpstream, h2]
  · simp [pushUpstream, h2]

/-- Witness for C10 at a branch tracking origin/main whose
upstreamRemote field is unset. -/
theorem upstreamItem_offered_but_inert_witness :
    (∃ i ∈ fetchingMenuItems demoRepoUpstreamOnly,
        i.label = "u" ∧ i.action = FetchAction.fromUpstream) ∧
    (∃ i ∈ generatePushingMenu demoRepoUpstreamOnly,
        i.label = "u" ∧ i.action = PushAction.toUpstream) ∧
    fetchFromUpstream demoRepoUpstreamOnly [] = [] ∧
    pushUpstream demoRepoUpstreamOnly [] = [] :=
  upstreamItem_offered_but_inert demoRepoUpstreamOnly [] rfl rfl

/-- C1: when the git process task fails, runCommitLikeCommand re-raises
the failure exactly when propagateErrors is truthy — so the call returns
normally when the option is false or unset and raises when it is true —
and on this path the instructional status message is disposed before the
"Commit canceled." status message is shown. -/
theorem commitFailure_spec (args : List String) (opts : Option CommitEditorOptions)
    (visible : Nat) :
    (runCommitLikeCommand args opts .failed visible).raised = effPropagateErrors opts ∧
    List.Sublist
      [CommitEvent.disposeInstruction, CommitEvent.statusMessage "Commit canceled."]
      (runCommitLikeCommand args opts .failed visible).trace := by
  constructor
  · rfl
  · have htr : (runCommitLikeCommand args opts .failed visible).trace =
      ([CommitEvent.showInstruction] ++
       (if effShowStagedChanges opts then [CommitEvent.openPreview] else []) ++
       [CommitEvent.gitStart args (effEditorVar opts)] ++
       (if effUpdatePostCommitTask opts then [CommitEvent.updateStatusView] else []) ++
       [CommitEvent.gitSettled]) ++
      ([CommitEvent.disposeInstruction, CommitEvent.statusMessage "Commit canceled."] ++
       ([CommitEvent.awaitPreview] ++
        (if effShowStagedChanges opts then List.replicate visible CommitEvent.closePreview
         else []))) := by
      simp [runCommitLikeCommand]
    rw [htr]
    exact sublist_surround _ _ _

/-- C2: when showStagedChanges is enabled and the preview document is
displayed in the one editor the preview-open created, a single
orchestrator invocation closes the preview exactly once — whatever the
process outcome and whether or not the failure propagates — the
preview-open task settles exactly once in the finally block, and the
close follows that settling. -/
theorem previewClosedOnce_spec (args : List String) (opts : Option CommitEditorOptions)
    (proc : ProcOutcome) (h : effShowStagedChanges opts = true) :
    (runCommitLikeCommand args opts proc 1).trace.countP isClosePreview = 1 ∧
    (runCommitLikeCommand args opts proc 1).trace.countP isAwaitPreview = 1 ∧
    List.Sublist [CommitEvent.awaitPreview, CommitEvent.closePreview]
      (runCommitLikeCommand args opts proc 1).trace := by
  refine ⟨?_, ?_, ?_⟩
  · cases proc <;> cases hupd : effUpdatePostCommitTask opts <;>
      simp [runCommitLikeCommand, h, hupd, isClosePreview, List.countP_cons,
        List.countP_append]
  · cases proc <;> cases hupd : effUpdatePostCommitTask opts <;>
      simp [runCommitLikeCommand, h, hupd, isAwaitPreview, List.countP_cons,
        List.countP_append]
  · cases proc with
    | ok r =>
      have htr : (runCommitLikeCommand args opts (.ok r) 1).trace =
        ([CommitEvent.showInstruction] ++ [CommitEvent.openPreview] ++
         [CommitEvent.gitStart args (effEditorVar opts)] ++
         (if effUpdatePostCommitTask opts then [CommitEvent.updateStatusView] else []) ++
         [CommitEvent.gitSettled, CommitEvent.disposeInstruction,
          CommitEvent.statusMessage ("Git finished: " ++ collapseLines r.stdout)]) ++
        [CommitEvent.awaitPreview, CommitEvent.closePreview] := by
        simp [runCommitLikeCommand, h]
      rw [htr]
      exact List.sublist_append_right _ _
    | failed =>
      have htr : (runCommitLikeCommand args opts .failed 1).trace =
        ([CommitEvent.showInstruction] ++ [CommitEvent.openPreview] ++
         [CommitEvent.gitStart args (effEditorVar opts)] ++
         (if effUpdatePostCommitTask opts then [CommitEvent.updateStatusView] else []) ++
         [CommitEvent.gitSettled, CommitEvent.disposeInstruction,
          CommitEvent.statusMessage "Commit canceled."]) ++
        [CommitEvent.awaitPreview, CommitEvent.closePreview] := by
        simp [runCommitLikeCommand, h]
      rw [htr]
      exact List.sublist_append_right _ _

/-- Witness for C2 at an invocation with the options argument omitted
and a succeeding process. -/
theorem previewClosedOnce_spec_witness :
    effShowStagedChanges none = true ∧
    (runCommitLikeCommand [] none (.ok { stdout := "", stderr := "" }) 1).trace.countP
      isClosePreview = 1 :=
  ⟨rfl, (previewClosedOnce_spec [] none (.ok { stdout := "", stderr := "" }) rfl).1⟩

/-- C9 counterexample: a call that passes an options object specifying
only propagateErrors — leaving showStagedChanges unset — does not open
the staged-changes preview, because the parameter default object applies
only when the options argument is omitted entirely. -/
theorem showStagedDefault_counterexample :
    CommitEvent.openPreview ∉
      (runCommitLikeCommand ["commit"] (some { propagateErrors := some true })
        (.ok { stdout := "", stderr := "" }) 1).trace := by
  decide

/-- C9 amended: the preview is opened for every invocation that omits
the options argument (only then does the default object carrying
showStagedChanges = true apply); an invocation that passes an options
object leaving showStagedChanges unset does not open the preview. -/
theorem showStagedDefault_amended (args : List String) (proc : ProcOutcome) (visible : Nat) :
    CommitEvent.openPreview ∈ (runCommitLikeCommand args none proc visible).trace ∧
    (∀ o : CommitEditorOptions, o.showStagedChanges = none →
      CommitEvent.openPreview ∉ (runCommitLikeCommand args (some o) proc visible).trace) := by
  constructor
  · cases proc <;> simp [runCommitLikeCommand, effShowStagedChanges]
  · intro o ho
    have hss : effShowStagedChanges (some o) = false := by
      simp [effShowStagedChanges, ho, fieldTruthy]
    cases proc <;> cases hupd : effUpdatePostCommitTask (some o) <;>
      simp [runCommitLikeCommand, hss, hupd, List.mem_replicate]

/-- Witness for C9 amended: with the options argument omitted the
preview opens; with an options object carrying only updatePostCommitTask
it does not. -/
theorem showStagedDefault_amended_witness :
    CommitEvent.openPreview ∈
      (runCommitLikeCommand [] none (.ok { stdout := "", stderr := "" }) 1).trace ∧
    CommitEvent.openPreview ∉
      (runCommitLikeCommand [] (some { updatePostCommitTask := some true })
        (.ok { stdout := "", stderr := "" }) 1).trace :=
  ⟨(showStagedDefault_amended [] (.ok { stdout := "", stderr := "" }) 1).1,
   (showStagedDefault_amended [] (.ok { stdout := "", stderr := "" }) 1).2
     { updatePostCommitTask := some true } rfl⟩

/-- C4: pushSetPushRemote with a dismissed chooser performs no
configuration write, no in-memory mutation and no process invocation,
leaving the repository unchanged; with a chosen remote it completes the
branch.<ref>.pushRemote configuration write, then mutates the in-memory
HEAD pushRemote to the {name, remote} pair, and the retried direct push
then issues push, the enabled switches' long forms, the chosen remote
and the branch, in that order. -/
theorem pushSetPushRemote_spec (repo : MagitRepository) (switches : List Switch)
    (r cr : String) (h : headName repo = some r) (hr : r ≠ "") (hcr : cr ≠ "") :
    pushSetPushRemote repo switches none = ([], repo) ∧
    (pushSetPushRemote repo switches (some cr)).1 =
      [ActionEvent.setConfig ("branch." ++ r ++ ".pushRemote") cr,
       ActionEvent.mutatePushRemote r cr,
       ActionEvent.gitRun (["push"] ++ switchesToArgs switches ++ [cr, r])] := by
  have hsome : (headOf repo).isSome := by
    cases hh : headOf repo with
    | none => simp [headName, hh] at h
    | some hd => rfl
  have hret : pushToPushRemote (setHeadPushRemote repo { name := r, remote := cr })
      switches = [ActionEvent.gitRun (["push"] ++ switchesToArgs switches ++ [cr, r])] := by
    simp [pushToPushRemote, headPushRemote_setHeadPushRemote repo _ hsome,
      headName_setHeadPushRemote, h, hcr, hr]
  constructor
  · cases hx : headName repo <;> simp [pushSetPushRemote, hx]
  · simp [pushSetPushRemote, h, hcr, hr, hret]

/-- Witness for C4 at branch main with chooser answer origin and no
switches enabled. -/
theorem pushSetPushRemote_spec_witness :
    pushSetPushRemote demoRepoNoPushRemote [] none = ([], demoRepoNoPushRemote) ∧
    (pushSetPushRemote demoRepoNoPushRemote [] (some "origin")).1 =
      [ActionEvent.setConfig "branch.main.pushRemote" "origin",
       ActionEvent.mutatePushRemote "main" "origin",
       ActionEvent.gitRun ["push", "origin", "main"]] := by
  have := pushSetPushRemote_spec demoRepoNoPushRemote [] "main" "origin" rfl
    (by decide) (by decide)
  simpa using this

/-- C5: pushSetUpstream with a chosen candidate splitting into a truthy
remote and branch name emits the branch.<ref>.merge write and the
branch.<ref>.remote write — initiated in that order and jointly awaited
— before the in-memory HEAD.upstreamRemote mutation, which in turn
precedes the re-invoked push-to-upstream process call; a dismissed or
rejected chooser performs nothing. -/
theorem pushSetUpstream_spec (repo : MagitRepository) (switches : List Switch)
    (r cr remoteSeg nameSeg : String) (h : headName repo = some r) (hr : r ≠ "")
    (hcr : cr ≠ "") (hseg : remoteBranchFullNameToSegments cr = (remoteSeg, nameSeg))
    (hremote : remoteSeg ≠ "") (hname : nameSeg ≠ "") :
    pushSetUpstream repo switches none = ([], repo) ∧
    (pushSetUpstream repo switches (some cr)).1 =
      [ActionEvent.setConfig ("branch." ++ r ++ ".merge") ("refs/heads/" ++ nameSeg),
       ActionEvent.setConfig ("branch." ++ r ++ ".remote") remoteSeg,
       ActionEvent.mutateUpstreamRemote nameSeg remoteSeg,
       ActionEvent.gitRun (["push"] ++ switchesToArgs switches ++ [remoteSeg, r])] := by
  have hsome : (headOf repo).isSome := by
    cases hh : headOf repo with
    | none => simp [headName, hh] at h
    | some hd => rfl
  have hret : pushUpstream (setHeadUpstreamRemote repo { name := nameSeg, remote := remoteSeg })
      switches = [ActionEvent.gitRun (["push"] ++ switchesToArgs switches ++ [remoteSeg, r])] := by
    simp [pushUpstream, headUpstreamRemote_setHeadUpstreamRemote repo _ hsome,
      headName_setHeadUpstreamRemote, h, hremote, hr]
  constructor
  · cases hx : headName repo <;> simp [pushSetUpstream, hx]
  · simp [pushSetUpstream, h, hcr, hr, hseg, hremote, hname, hret]

/-- Witness for C5 at branch main with chooser answer origin/feature and
no switches enabled. -/
theorem pushSetUpstream_spec_witness :
    pushSetUpstream demoRepoNoPushRemote [] none = ([], demoRepoNoPushRemote) ∧
    (pushSetUpstream demoRepoNoPushRemote [] (some "origin/feature")).1 =
      [ActionEvent.setConfig "branch.main.merge" "refs/heads/feature",
       ActionEvent.setConfig "branch.main.remote" "origin",
       ActionEvent.mutateUpstreamRemote "feature" "origin",
       ActionEvent.gitRun ["push", "origin", "main"]] := by
  have := pushSetUpstream_spec demoRepoNoPushRemote [] "main" "origin/feature"
    "origin" "feature" rfl (by decide) (by decide) (by decide) (by decide) (by decide)
  simpa using this

/-- C3 counterexample: with remote origin, branch main, and a ref set
whose only ref is a tag named origin/main, no synthetic candidate is
injected — a ref of the expected name exists — and the tag filter then
empties the list, so the candidate list presented by pushSetUpstream is
empty although a remote is configured. -/
theorem upstreamCandidates_empty_counterexample :
    demoRepoTagShadow.state.remotes ≠ [] ∧
    upstreamCandidates demoRepoTagShadow = [] := by
  decide

/-- C3 amended: with at least one configured remote and a current
branch, the upstream-candidate list is non-empty provided that, whenever
some ref is named <first remote>/<current branch>, at least one ref of
that name is not a Tag; in particular, when no ref of that name exists,
a synthetic RemoteHead candidate with that name is injected and survives
the tag/current-branch filtering. (When every ref of the expected name
is a Tag, no synthetic candidate is injected and the filtered list can
be empty.) -/
theorem upstreamCandidates_nonempty (repo : MagitRepository) (r0 : MagitRemote)
    (rs : List MagitRemote) (b : String)
    (hrem : repo.state.remotes = r0 :: rs) (hb : headName repo = some b)
    (hsafe : (∀ r ∈ repo.state.refs, r.name ≠ some (r0.name ++ "/" ++ b)) ∨
             (∃ r ∈ repo.state.refs,
                r.name = some (r0.name ++ "/" ++ b) ∧ r.type ≠ RefType.Tag)) :
    upstreamCandidates repo ≠ [] := by
  have hjs : jsStr (headName repo) = b := by rw [hb]; rfl
  have hne : (r0.name ++ "/" ++ b) ≠ b := slash_append_ne r0.name b
  rcases hsafe with hnone | ⟨r, hrmem, hrname, hrtag⟩
  · have hany : repo.state.refs.any
        (fun r => r.name == some (r0.name ++ "/" ++ b)) = false := by
      rw [List.any_eq_false]
      intro r hrmem
      simpa using hnone r hrmem
    have hsyn : upstreamFilter (headName repo)
        { name := some (r0.name ++ "/" ++ b), remote := some r0.name,
          type := RefType.RemoteHead, commit := none } = true := by
      simp [upstreamFilter, hb, hne]
    simp only [upstreamCandidates, hrem, hjs, hany, Bool.false_eq_true, if_false,
      List.filter_cons, hsyn]
    exact sortByTypeDesc_ne_nil (List.cons_ne_nil _ _)
  · have hany : repo.state.refs.any
        (fun r => r.name == some (r0.name ++ "/" ++ b)) = true := by
      rw [List.any_eq_true]
      exact ⟨r, hrmem, by simp [hrname]⟩
    have hmemf : r ∈ repo.state.refs.filter (upstreamFilter (headName repo)) := by
      rw [List.mem_filter]
      refine ⟨hrmem, ?_⟩
      simp [upstreamFilter, hb, hrname, hrtag, hne]
    simp only [upstreamCandidates, hrem, hjs, hany, if_true]
    exact sortByTypeDesc_ne_nil (List.ne_nil_of_mem hmemf)

/-- Witness for C3 amended: branch feature, remote origin, a ref set
without origin/feature — the candidate list is non-empty. -/
theorem upstreamCandidates_nonempty_witness :
    upstreamCandidates demoRepoFeature ≠ [] :=
  upstreamCandidates_nonempty demoRepoFeature { name := "origin" } [] "feature" rfl rfl
    (Or.inl (by decide))

/-- C6: with first remote r0 and current branch b, a synthesized
candidate named r0/b is produced exactly when the ref set contains no
ref of that name; when produced it is the first element of the output
list, and when a ref of that name already exists the output is exactly
the filtered-and-sorted original ref set, with no candidate added. -/
theorem upstreamCandidates_synthesis (repo : MagitRepository) (r0 : MagitRemote)
    (rs : List MagitRemote) (b : String)
    (hrem : repo.state.remotes = r0 :: rs) (hb : headName repo = some b) :
    ((∀ r ∈ repo.state.refs, r.name ≠ some (r0.name ++ "/" ++ b)) →
      (upstreamCandidates repo).head? =
        some { name := some (r0.name ++ "/" ++ b), remote := some r0.name,
               type := RefType.RemoteHead, commit := none }) ∧
    ((∃ r ∈ repo.state.refs, r.name = some (r0.name ++ "/" ++ b)) →
      upstreamCandidates repo =
        sortByTypeDesc (repo.state.refs.filter (upstreamFilter (some b)))) := by
  have hjs : jsStr (headName repo) = b := by rw [hb]; rfl
  have hne : (r0.name ++ "/" ++ b) ≠ b := slash_append_ne r0.name b
  constructor
  · intro hnone
    have hany : repo.state.refs.any
        (fun r => r.name == some (r0.name ++ "/" ++ b)) = false := by
      rw [List.any_eq_false]
      intro r hrmem
      simpa using hnone r hrmem
    have hsyn : upstreamFilter (headName repo)
        { name := some (r0.name ++ "/" ++ b), remote := some r0.name,
          type := RefType.RemoteHead, commit := none } = true := by
      simp [upstreamFilter, hb, hne]
    have hmax : ∀ y ∈ repo.state.refs.filter (upstreamFilter (headName repo)),
        y.type.toNat ≤ RefType.RemoteHead.toNat := by
      intro y hy
      have := (List.mem_filter.mp hy).2
      have hyt : y.type ≠ RefType.Tag := by
        intro hc
        simp [upstreamFilter, hc] at this
      cases hcy : y.type with
      | Head => simp [RefType.toNat]
      | RemoteHead => simp [RefType.toNat]
      | Tag => exact absurd hcy hyt
    simp only [upstreamCandidates, hrem, hjs, hany, Bool.false_eq_true, if_false,
      List.filter_cons, hsyn]
    rw [if_pos trivial, sortByTypeDesc_cons_of_max hmax]
    rfl
  · intro hex
    obtain ⟨r, hrmem, hrname⟩ := hex
    have hany : repo.state.refs.any
        (fun r => r.name == some (r0.name ++ "/" ++ b)) = true := by
      rw [List.any_eq_true]
      exact ⟨r, hrmem, by simp [hrname]⟩
    simp only [upstreamCandidates, hrem, hjs, hany, eq_self_iff_true, if_true]
    rw [hb]

/-- Witness for C6: branch feature, remote origin, ref set without
origin/feature — the synthesized candidate heads the output list. -/
theorem upstreamCandidates_synthesis_witness :
    (upstreamCandidates demoRepoFeature).head? =
      some { name := some ("origin" ++ "/" ++ "feature"), remote := some "origin",
             type := RefType.RemoteHead, commit := none } :=
  (upstreamCandidates_synthesis demoRepoFeature { name := "origin" } [] "feature"
    rfl rfl).1 (by decide)

end VSCodeMagit
